import Mathlib

/-!
# Verification of the seat-allocation core of `app.py`

This file gives a shallow embedding of the `allocate_seats` function of the
repository (src/app.py, lines 31-124) together with the UI-side construction
of room constraints (lines 148-175), and proves/refutes the frozen claims
about it.

Modelling conventions:
* pandas DataFrames are lists of records (structures of `String` fields); the
  student file is a `Roster` (a header row plus data rows), mirroring that the
  code resolves columns by header name.
* Python `str.strip().lower()` is `norm` (`String.trim` + `String.toLower`).
* Python `str.startswith(("LA","LC","LH"))` is a 2-character prefix test on
  the character list.
* `room_constraints` is a Python dict; we embed it as an ordered association
  list (`Spec`), which is how the code iterates it (`.items()` in insertion
  order).  Dict semantics (no duplicate keys) is stated as a `Nodup`
  hypothesis where a claim needs it.
* `pd.DataFrame.sample(frac=1, random_state=s)` is `pdSample`: a permutation
  of the rows that is a pure function of the effective seed.  When
  `random_state` is `none`, pandas falls back to numpy's ambient global
  random state; we model that ambient state as an explicit `Nat` argument.
  The source always passes `random_state=42` (app.py line 57).  The concrete
  permutation (a key-sort under a small LCG) stands in for numpy's
  permutation; every claim below depends only on it being a seed-determined
  permutation, not on which permutation it is.
* `st.error`/`st.warning` are UI side channels: the embedding returns the
  list of warning messages alongside the function result, and a `None`
  return after `st.error` becomes `Except.error` carrying the message.
  Message texts are ASCII renderings of the Python f-strings.
* `pd.concat` raises `ValueError: No objects to concatenate` on an empty
  list; the surrounding `try/except` turns that into `st.error(...)` and
  `return None` (app.py lines 113, 122-124).  The embedding returns the
  corresponding `Except.error` when no batch was accumulated.
* `df_final.sort_values("Roll No")` sorts by the string-rendered roll number
  under Python's code-point-lexicographic string order (`charListLe`);
  pandas' default sort leaves the order of equal keys unspecified, and we
  model it as insertion sort.  `df_final.index += 1` (display numbering) is
  presentation-only and not part of the returned table.
-/

namespace SeatAlloc

instance {ε α : Type} [DecidableEq ε] [DecidableEq α] : DecidableEq (Except ε α) := fun a b =>
  match a, b with
  | .ok x, .ok y =>
      if h : x = y then .isTrue (by rw [h]) else .isFalse (fun hc => by cases hc; exact h rfl)
  | .error x, .error y =>
      if h : x = y then .isTrue (by rw [h]) else .isFalse (fun hc => by cases hc; exact h rfl)
  | .ok _, .error _ => .isFalse (fun hc => by cases hc)
  | .error _, .ok _ => .isFalse (fun hc => by cases hc)

/-- Python `str.strip()` on the character list: drop leading and trailing
whitespace. -/
def trimChars (l : List Char) : List Char :=
  ((l.dropWhile Char.isWhitespace).reverse.dropWhile Char.isWhitespace).reverse

/-- Python `str.strip().lower()`, used by app.py on colors and parities
(lines 64-65, 74, 94), written directly on the character list so that it is
computable by the kernel. -/
def norm (s : String) : String := ⟨(trimChars s.data).map Char.toLower⟩

/-- Python `s.startswith(p)` for a two-character prefix `p`. -/
def startsWith2 (s : String) (c1 c2 : Char) : Bool :=
  s.data.take 2 == [c1, c2]

/-- Python `room.startswith(("LA", "LC", "LH"))` (app.py line 71). -/
def isColRoom (room : String) : Bool :=
  startsWith2 room 'L' 'A' || startsWith2 room 'L' 'C' || startsWith2 room 'L' 'H'

/-- Python `room.startswith(("CC", "KR"))` (app.py line 93). -/
def isBlockRoom (room : String) : Bool :=
  startsWith2 room 'C' 'C' || startsWith2 room 'K' 'R'

/-- One row of the parsed student roster: the `Roll No` and `Name` cells. -/
structure Student where
  rollNo : String
  name : String
deriving DecidableEq, Repr

/-- One row of the LA/LC/LH seat inventory (`Room Number`, `Position`,
`Color`, `Seat Number`). -/
structure ColSeat where
  roomNumber : String
  position : String
  color : String
  seatNumber : String
deriving DecidableEq, Repr

/-- One row of the CC/KR seat inventory (`Room Number`, `Parity`,
`Seat Number`). -/
structure BlockSeat where
  roomNumber : String
  parity : String
  seatNumber : String
deriving DecidableEq, Repr

/-- One row of the output table: `Roll No`, `Name`, `Seat Number`, `Room`,
`Signature` (app.py lines 86-88, 113-115). -/
structure Record where
  rollNo : String
  name : String
  seatNumber : String
  room : String
  signature : String
deriving DecidableEq, Repr

/-- The per-room constraint value: a Python dict from position (or the key
`"Parity"`) to a list of strings, iterated in insertion order. -/
abbrev ConstraintMap : Type := List (String × List String)

/-- The `room_constraints` argument: an ordered mapping (Python dict) from
room identifier to its constraint dict. -/
abbrev Spec : Type := List (String × ConstraintMap)

/-- Python `d.get(k, [])` on a constraint dict (app.py line 94). -/
def dictGet (d : ConstraintMap) (k : String) : List String :=
  match d.find? (fun p => p.1 == k) with
  | some p => p.2
  | none => []

/-- A batch of assignments appended to `allocated_seats` by one query:
either one (room, position, color) column query (app.py lines 75-91) or one
(room, parity-set) block query (lines 95-111), with the (student, seat)
pairs it assigned. -/
inductive Batch where
  | col (room position color : String) (pairs : List (Student × ColSeat))
  | block (room : String) (parities : List String) (pairs : List (Student × BlockSeat))
deriving DecidableEq, Repr

/-- The output rows contributed by a batch: each assigned student with the
seat number of its seat, the room of the query, and an empty signature
(app.py lines 85-88, 105-108). -/
def Batch.records : Batch → List Record
  | .col room _ _ pairs =>
      pairs.map (fun pr => ⟨pr.1.rollNo, pr.1.name, pr.2.seatNumber, room, ""⟩)
  | .block room _ pairs =>
      pairs.map (fun pr => ⟨pr.1.rollNo, pr.1.name, pr.2.seatNumber, room, ""⟩)

/-- The students assigned by a batch, in assignment order. -/
def Batch.students : Batch → List Student
  | .col _ _ _ pairs => pairs.map Prod.fst
  | .block _ _ pairs => pairs.map Prod.fst

/-- The loop state of `allocate_seats`: the accumulated `allocated_seats`
batches, the `remaining_students` pool, and the `st.warning` messages
emitted so far. -/
structure AllocState where
  batches : List Batch
  pool : List Student
  warnings : List String
deriving DecidableEq, Repr

/-- One column query (app.py lines 74-91): filter the column catalog by
room, position and (already normalized) color; if nothing matches, silently
continue; otherwise assign the first `min` students of the pool to the first
matching seats and append the batch. -/
def colQueryStep (colCat : List ColSeat) (room position color : String)
    (st : AllocState) : AllocState :=
  let validSeats := colCat.filter (fun s =>
    s.roomNumber == room && s.position == position && s.color == color)
  if validSeats.isEmpty then st
  else
    let k := min validSeats.length st.pool.length
    { st with
      batches := st.batches ++ [.col room position color ((st.pool.take k).zip (validSeats.take k))]
      pool := st.pool.drop k }

/-- Comma-separated rendering of a list of strings. -/
def joinComma : List String → String
  | [] => ""
  | [s] => s
  | s :: rest => s ++ ", " ++ joinComma rest

/-- The warning text of app.py line 101, with the Python list rendering of
the parity filter flattened to a comma-separated string. -/
def blockSkipMsg (room : String) (parities : List String) : String :=
  "No valid seats for " ++ room ++ " with parity " ++
    joinComma parities ++ ". Skipping..."

/-- The single parity query of a block room (app.py lines 95-111), taking
the already-normalized parity filter: filter the block catalog by room and
parity membership; if nothing matches, emit a warning and continue;
otherwise assign as in the column case. -/
def blockQueryStep (blockCat : List BlockSeat) (room : String)
    (parityList : List String) (st : AllocState) : AllocState :=
  let validSeats := blockCat.filter (fun s =>
    s.roomNumber == room && parityList.contains s.parity)
  if validSeats.isEmpty then
    { st with warnings := st.warnings ++ [blockSkipMsg room parityList] }
  else
    let k := min validSeats.length st.pool.length
    { st with
      batches := st.batches ++ [.block room parityList ((st.pool.take k).zip (validSeats.take k))]
      pool := st.pool.drop k }

/-- One block-room entry (app.py lines 94-111): normalize the requested
parities (line 94), then run the parity query. -/
def blockRoomStep (blockCat : List BlockSeat) (room : String)
    (cmap : ConstraintMap) (st : AllocState) : AllocState :=
  blockQueryStep blockCat room ((dictGet cmap "Parity").map norm) st

/-- Processing of one `room_constraints` entry (app.py lines 70-111): a
column room iterates its constraint dict as (position, colors) and each
color separately (normalized at line 74); a block room runs one parity
query; any other room prefix falls through both branches and does
nothing. -/
def roomStep (colCat : List ColSeat) (blockCat : List BlockSeat)
    (st : AllocState) (entry : String × ConstraintMap) : AllocState :=
  if isColRoom entry.1 then
    entry.2.foldl (fun st1 pc =>
      pc.2.foldl (fun st2 c => colQueryStep colCat entry.1 pc.1 (norm c) st2) st1) st
  else if isBlockRoom entry.1 then
    blockRoomStep blockCat entry.1 entry.2 st
  else st

/-- The allocation loop of app.py lines 67-111, starting from the full
working pool with no batches and no warnings. -/
def allocCore (colCat : List ColSeat) (blockCat : List BlockSeat)
    (spec : Spec) (pool : List Student) : AllocState :=
  spec.foldl (roomStep colCat blockCat) ⟨[], pool, []⟩

/-- The parsed student spreadsheet: its header row and its data rows.  Cells
are modelled as their string rendering (`Roll No` is converted with
`astype(str)` before it is ever compared, app.py line 116). -/
structure Roster where
  headers : List String
  rows : List (List String)

/-- The index of the last header whose `strip().lower()` form equals `key`:
the dict comprehension of app.py line 37 keeps the last column for each
normalized name, so `col_map[key]` is that column. -/
def lastIdxWithNorm (headers : List String) (key : String) : Option Nat :=
  ((headers.enum.filter (fun p => norm p.2 == key)).getLast?).map Prod.fst

/-- The column used as `Roll No` (app.py lines 41-44): a header normalizing
to `"roll no"` if any, else one normalizing to `"roll"`. -/
def rollIdx (headers : List String) : Option Nat :=
  (lastIdxWithNorm headers "roll no").orElse (fun _ => lastIdxWithNorm headers "roll")

/-- The column used as `Name` (app.py lines 45-46). -/
def nameIdx (headers : List String) : Option Nat :=
  lastIdxWithNorm headers "name"

/-- Net effect of the header normalization and the required-columns check of
app.py lines 36-53: if both a roll-number and a name column are resolvable,
each row yields a `Student` from those two cells; otherwise the run fails
before any assignment. -/
def parseStudents (r : Roster) : Option (List Student) :=
  match rollIdx r.headers, nameIdx r.headers with
  | some i, some j => some (r.rows.map (fun row => ⟨row.getD i "", row.getD j ""⟩))
  | _, _ => none

/-- A linear congruential pseudo-random key, driving the modelled shuffle. -/
def lcgKey (seed i : Nat) : Nat :=
  (seed * 2654435761 + i * 1103515245 + 12345) % 2147483648

/-- Modelled permutation behind `pd.DataFrame.sample(frac=1, random_state=seed)`:
decorate each row with a seed-determined key and stable-sort by it.  The
exact permutation numpy produces is irrelevant to every claim below; what
matters is that it is a permutation and a pure function of the seed. -/
def sampleFrac1 {α : Type} (seed : Nat) (l : List α) : List α :=
  ((l.enum.map (fun p => (lcgKey seed p.1, p.2))).insertionSort
      (fun a b => a.1 ≤ b.1)).map Prod.snd

/-- Pandas `df.sample(frac=1, random_state=rs)` where `rs = none` means it uses
numpy's ambient global random state (modelled as the explicit `ambient`
argument).  The source always calls it with `rs = some 42` (app.py
line 57). -/
def pdSample {α : Type} (rs : Option Nat) (ambient : Nat) (l : List α) : List α :=
  sampleFrac1 (rs.getD ambient) l

/-- The exact mode string of the app's radio widget (app.py lines 56, 144). -/
def shuffleMode : String := "Random Order (Shuffle Students)"

/-- app.py lines 56-59: shuffle the roster with the fixed seed 42 in shuffle
mode, keep it as parsed otherwise. -/
def applyMode (mode : String) (ambient : Nat) (students : List Student) : List Student :=
  if mode == shuffleMode then pdSample (some 42) ambient students else students

/-- Normalization of the column-seat catalog (app.py line 64): only the
`Color` cells are stripped/lower-cased; `Seat Number` stays verbatim. -/
def normColCat (cat : List ColSeat) : List ColSeat :=
  cat.map (fun s => { s with color := norm s.color })

/-- Normalization of the block-seat catalog (app.py line 65). -/
def normBlockCat (cat : List BlockSeat) : List BlockSeat :=
  cat.map (fun s => { s with parity := norm s.parity })

/-- Lexicographic (code-point) string comparison, as Python compares `str`
values: the order `sort_values` uses on the `astype(str)` roll numbers. -/
def charListLe : List Char → List Char → Bool
  | [], _ => true
  | _ :: _, [] => false
  | a :: as, b :: bs => if a < b then true else if b < a then false else charListLe as bs

/-- Comparison used by `df_final.sort_values("Roll No")` after
`astype(str)` (app.py lines 116-117): text (lexicographic) order on the
roll-number strings, not numeric order. -/
def rollLe (a b : Record) : Prop := charListLe a.rollNo.data b.rollNo.data = true

instance : DecidableRel rollLe := fun a b =>
  inferInstanceAs (Decidable (charListLe a.rollNo.data b.rollNo.data = true))

/-- app.py lines 113-118: concatenate the accumulated batches and sort the
table by the string-rendered roll number.  pandas' default sort leaves the
relative order of equal keys unspecified; the model fixes insertion sort. -/
def finalTable (batches : List Batch) : List Record :=
  ((batches.map Batch.records).flatten).insertionSort rollLe

/-- The `st.error` text of the required-columns check (app.py line 52). -/
def requiredColumnsError : String :=
  "Error: The file must contain at least these columns: Roll No, Name"

/-- The `st.error` text produced when `pd.concat` raises on an empty batch
list (app.py lines 113, 123). -/
def emptyConcatError : String :=
  "An error occurred: No objects to concatenate"

/-- The full `allocate_seats` function (app.py lines 31-124).  The result is
the list of `st.warning` messages emitted during the run, paired with either
the final table (`return df_final`) or the `st.error` message of a failed
run (`return None`).  `ambient` is numpy's ambient global random state,
which the function receives only to show it never influences the result. -/
def allocateSeats (ambient : Nat) (roster : Roster) (rawColCat : List ColSeat)
    (rawBlockCat : List BlockSeat) (spec : Spec) (mode : String) :
    List String × Except String (List Record) :=
  match parseStudents roster with
  | none => ([], .error requiredColumnsError)
  | some students =>
    let pool := applyMode mode ambient students
    let st := allocCore (normColCat rawColCat) (normBlockCat rawBlockCat) spec pool
    if st.batches.isEmpty then (st.warnings, .error emptyConcatError)
    else (st.warnings, .ok (finalTable st.batches))

/-- The constraint dict built by the UI for a column room (app.py lines
167-171): positions in the fixed order Left, Middle, Right. -/
def mkColConstraint (left middle right : List String) : ConstraintMap :=
  [("Left", left), ("Middle", middle), ("Right", right)]

/-- The constraint dict built by the UI for a block room (app.py line 175). -/
def mkBlockConstraint (parity : String) : ConstraintMap :=
  [("Parity", [parity])]

/-!
## A query-list view of the allocation loop

The loop of app.py lines 70-111 is a sequence of seat queries: one
(room, position, color) query per color of a column entry, one
(room, parity-set) query per block entry.  The following definitions make
that query sequence explicit; `allocCore_eq_foldl_queryList` below proves
the loop equal to a fold over it, and the claim proofs work on this view.
-/

/-- One seat query of the loop. -/
inductive Query where
  | colQ (room position color : String)
  | blockQ (room : String) (parities : List String)
deriving DecidableEq, Repr

/-- The room a query is for (always the constraint-spec key). -/
def Query.room : Query → String
  | .colQ r _ _ => r
  | .blockQ r _ => r

/-- Executing one query against the state. -/
def qstep (colCat : List ColSeat) (blockCat : List BlockSeat)
    (st : AllocState) (q : Query) : AllocState :=
  match q with
  | .colQ room pos color => colQueryStep colCat room pos color st
  | .blockQ room ps => blockQueryStep blockCat room ps st

/-- The queries generated by one `room_constraints` entry, in execution
order. -/
def queriesOfEntry (e : String × ConstraintMap) : List Query :=
  if isColRoom e.1 then
    (e.2.map (fun pc => pc.2.map (fun c => Query.colQ e.1 pc.1 (norm c)))).flatten
  else if isBlockRoom e.1 then
    [Query.blockQ e.1 ((dictGet e.2 "Parity").map norm)]
  else []

/-- The full query sequence of a run. -/
def queryList (spec : Spec) : List Query :=
  (spec.map queriesOfEntry).flatten

/-- The seats of the (already normalized) catalogs matching a query, as the
(room, seat number) pairs they contribute to output rows. -/
def qSeatPairs (colCat : List ColSeat) (blockCat : List BlockSeat) :
    Query → List (String × String)
  | .colQ room pos color =>
      (colCat.filter (fun s =>
        s.roomNumber == room && s.position == pos && s.color == color)).map
        (fun s => (room, s.seatNumber))
  | .blockQ room ps =>
      (blockCat.filter (fun s =>
        s.roomNumber == room && ps.contains s.parity)).map
        (fun s => (room, s.seatNumber))

/-- The (room, seat number) pair of an output row — the claim `no seat is
assigned twice` is about these pairs. -/
def recPair (r : Record) : String × String := (r.room, r.seatNumber)

/-- The (room, seat number) pairs already used by the accumulated batches. -/
def usedPairs (st : AllocState) : List (String × String) :=
  ((st.batches.map Batch.records).flatten).map recPair

/-- The students assigned by the accumulated batches, in assignment
order. -/
def assignedStudents (st : AllocState) : List Student :=
  (st.batches.map Batch.students).flatten

/-- The roster entry behind an output row. -/
def recStudent (r : Record) : Student := ⟨r.rollNo, r.name⟩

/-- The (room number, seat number) pair of a column-inventory row. -/
def colSeatPair (s : ColSeat) : String × String := (s.roomNumber, s.seatNumber)

/-- The (room number, seat number) pair of a block-inventory row. -/
def blockSeatPair (s : BlockSeat) : String × String := (s.roomNumber, s.seatNumber)

/-- Provenance of a query in a constraint spec: a column query arises from
one color of one position of a column-room entry (its color already
normalized, app.py line 74); a block query is the single parity query of a
block-room entry (app.py line 94). -/
def QueryFrom (spec : Spec) : Query → Prop
  | .colQ room pos color =>
      isColRoom room = true ∧
      ∃ cmap colors c0, (room, cmap) ∈ spec ∧ (pos, colors) ∈ cmap ∧ c0 ∈ colors ∧
        color = norm c0
  | .blockQ room parities =>
      isColRoom room = false ∧ isBlockRoom room = true ∧
      ∃ cmap, (room, cmap) ∈ spec ∧ parities = (dictGet cmap "Parity").map norm

/-- Every batch accumulated by the loop consists of a query sanctioned by
the constraint spec together with pairs whose seats come from the indicated
(normalized) catalog and satisfy that query's filter. -/
def BatchFrom (colCat : List ColSeat) (blockCat : List BlockSeat) (spec : Spec) :
    Batch → Prop
  | .col room pos color pairs =>
      QueryFrom spec (.colQ room pos color) ∧
      ∀ pr ∈ pairs, pr.2 ∈ colCat ∧ pr.2.roomNumber = room ∧ pr.2.position = pos ∧
        pr.2.color = color
  | .block room parities pairs =>
      QueryFrom spec (.blockQ room parities) ∧
      ∀ pr ∈ pairs, pr.2 ∈ blockCat ∧ pr.2.roomNumber = room ∧ pr.2.parity ∈ parities

/-!
## Concrete inputs used by the witnesses and counterexamples
-/

/-- The parsed form of `exRoster`. -/
def exStudents : List Student := [⟨"1", "A"⟩, ⟨"2", "B"⟩]

/-- A two-student roster with canonical headers. -/
def exRoster : Roster := ⟨["Roll No", "Name"], [["1", "A"], ["2", "B"]]⟩

/-- A one-seat column inventory. -/
def exColCat : List ColSeat := [⟨"LA 001", "Left", "yellow", "L1"⟩]

/-- One column-room entry asking for Yellow on the Left. -/
def exSpec : Spec := [("LA 001", mkColConstraint ["Yellow"] [] [])]

/-- The app's non-shuffle mode string (app.py line 144). -/
def seqMode : String := "Sequential Order (Keep Student Order)"

/-- The output table of the `exRoster`/`exColCat`/`exSpec` sequential run. -/
def exTable : List Record := [⟨"1", "A", "L1", "LA 001", ""⟩]

/-- One block-room entry that matches no seat of an empty block catalog. -/
def skipSpec : Spec := [("CC 101", mkBlockConstraint "Odd")]

/-- One column-room entry that matches no seat of `exColCat`. -/
def colMissSpec : Spec := [("LC 001", mkColConstraint ["Red"] [] [])]

/-- A roster whose roll numbers order differently as text than as numbers. -/
def ros7 : Roster := ⟨["Roll No", "Name"], [["2", "A"], ["10", "B"]]⟩

/-- The parsed form of `ros7`. -/
def stu7 : List Student := [⟨"2", "A"⟩, ⟨"10", "B"⟩]

/-- A two-seat column inventory for the ordering runs. -/
def cat7 : List ColSeat :=
  [⟨"LA 001", "Left", "yellow", "L1"⟩, ⟨"LA 001", "Left", "yellow", "L2"⟩]

/-- The output table of the `ros7`/`cat7`/`exSpec` sequential run. -/
def exTable7 : List Record :=
  [⟨"10", "B", "L2", "LA 001", ""⟩, ⟨"2", "A", "L1", "LA 001", ""⟩]

/-- A column entry listing the same color twice for one position. -/
def dupColorSpec : Spec := [("LA 001", mkColConstraint ["Yellow", "Yellow"] [] [])]

/-!
## Structural lemmas about the loop
-/

theorem charListLe_total : ∀ a b : List Char, charListLe a b = true ∨ charListLe b a = true
  | [], _ => Or.inl rfl
  | _ :: _, [] => Or.inr rfl
  | a :: as, b :: bs => by
    rcases lt_trichotomy a b with h | h | h
    · left
      simp [charListLe, h]
    · subst h
      rcases charListLe_total as bs with h2 | h2
      · left
        simpa [charListLe, lt_irrefl] using h2
      · right
        simpa [charListLe, lt_irrefl] using h2
    · right
      simp [charListLe, h]

theorem charListLe_trans : ∀ a b c : List Char, charListLe a b = true →
    charListLe b c = true → charListLe a c = true
  | [], _, _, _, _ => rfl
  | _ :: _, [], _, h1, _ => by simp [charListLe] at h1
  | _ :: _, _ :: _, [], _, h2 => by simp [charListLe] at h2
  | a :: as, b :: bs, c :: cs, h1, h2 => by
    simp only [charListLe] at h1 h2 ⊢
    rcases lt_trichotomy a b with hab | hab | hab
    · rcases lt_trichotomy b c with hbc | hbc | hbc
      · rw [if_pos (lt_trans hab hbc)]
      · subst hbc
        rw [if_pos hab]
      · rw [if_neg (asymm hbc), if_pos hbc] at h2
        exact absurd h2 (by simp)
    · subst hab
      rw [if_neg (lt_irrefl a), if_neg (lt_irrefl a)] at h1
      rcases lt_trichotomy a c with hbc | hbc | hbc
      · rw [if_pos hbc]
      · subst hbc
        rw [if_neg (lt_irrefl a), if_neg (lt_irrefl a)] at h2 ⊢
        exact charListLe_trans as bs cs h1 h2
      · rw [if_neg (asymm hbc), if_pos hbc] at h2
        exact absurd h2 (by simp)
    · rw [if_neg (asymm hab), if_pos hab] at h1
      exact absurd h1 (by simp)

instance : IsTotal Record rollLe := ⟨fun a b => charListLe_total a.rollNo.data b.rollNo.data⟩

instance : IsTrans Record rollLe :=
  ⟨fun a b c h1 h2 => charListLe_trans a.rollNo.data b.rollNo.data c.rollNo.data h1 h2⟩

theorem roomStep_eq_foldl (colCat : List ColSeat) (blockCat : List BlockSeat)
    (st : AllocState) (e : String × ConstraintMap) :
    roomStep colCat blockCat st e = (queriesOfEntry e).foldl (qstep colCat blockCat) st := by
  unfold roomStep queriesOfEntry
  by_cases h1 : isColRoom e.1
  · simp only [h1, if_true, List.foldl_flatten, List.foldl_map]
    rfl
  · by_cases h2 : isBlockRoom e.1
    · simp only [h1, h2, if_false, if_true, List.foldl_cons, List.foldl_nil, blockRoomStep]
      rfl
    · simp [h1, h2]

theorem allocCore_eq_foldl_queryList (colCat : List ColSeat) (blockCat : List BlockSeat)
    (spec : Spec) (pool : List Student) :
    allocCore colCat blockCat spec pool =
      (queryList spec).foldl (qstep colCat blockCat) ⟨[], pool, []⟩ := by
  unfold allocCore queryList
  rw [List.foldl_flatten, List.foldl_map]
  induction spec generalizing pool with
  | nil => rfl
  | cons e rest ih =>
    simp only [List.foldl_cons, roomStep_eq_foldl]
    generalize (queriesOfEntry e).foldl (qstep colCat blockCat) ⟨[], pool, []⟩ = st
    clear ih
    induction rest generalizing st with
    | nil => rfl
    | cons e2 rest2 ih2 => simp only [List.foldl_cons, roomStep_eq_foldl, ih2]

theorem assignedStudents_append_batch (st : AllocState) (b : Batch) (p : List Student)
    (w : List String) :
    assignedStudents ⟨st.batches ++ [b], p, w⟩ = assignedStudents st ++ b.students := by
  simp [assignedStudents]

theorem students_of_zip_take {β : Type} (f : List (Student × β) → Batch)
    (hf : ∀ pairs, (f pairs).students = pairs.map Prod.fst)
    (pool : List Student) (seats : List β) (k : Nat) (hk : k ≤ pool.length)
    (hk2 : k ≤ seats.length) :
    (f ((pool.take k).zip (seats.take k))).students = pool.take k := by
  rw [hf, List.map_fst_zip]
  simp only [List.length_take]
  omega

theorem qstep_students (colCat : List ColSeat) (blockCat : List BlockSeat)
    (st : AllocState) (q : Query) :
    assignedStudents (qstep colCat blockCat st q) ++ (qstep colCat blockCat st q).pool =
      assignedStudents st ++ st.pool := by
  cases q with
  | colQ room pos color =>
    simp only [qstep, colQueryStep]
    split
    · rfl
    · rw [assignedStudents_append_batch st]
      rw [students_of_zip_take (Batch.col room pos color) (fun _ => rfl) _ _ _
        (min_le_right _ _) (min_le_left _ _)]
      rw [List.append_assoc, List.take_append_drop]
  | blockQ room ps =>
    simp only [qstep, blockQueryStep]
    split
    · rfl
    · rw [assignedStudents_append_batch st]
      rw [students_of_zip_take (Batch.block room ps) (fun _ => rfl) _ _ _
        (min_le_right _ _) (min_le_left _ _)]
      rw [List.append_assoc, List.take_append_drop]

theorem foldl_qstep_students (colCat : List ColSeat) (blockCat : List BlockSeat)
    (qs : List Query) (st : AllocState) :
    assignedStudents (qs.foldl (qstep colCat blockCat) st) ++
        (qs.foldl (qstep colCat blockCat) st).pool =
      assignedStudents st ++ st.pool := by
  induction qs generalizing st with
  | nil => rfl
  | cons q rest ih => rw [List.foldl_cons, ih, qstep_students]

theorem allocCore_students (colCat : List ColSeat) (blockCat : List BlockSeat)
    (spec : Spec) (pool : List Student) :
    assignedStudents (allocCore colCat blockCat spec pool) ++
        (allocCore colCat blockCat spec pool).pool = pool := by
  rw [allocCore_eq_foldl_queryList, foldl_qstep_students]
  rfl

theorem records_map_recStudent (b : Batch) : b.records.map recStudent = b.students := by
  cases b with
  | col room pos color pairs =>
    simp only [Batch.records, Batch.students, List.map_map]
    exact List.map_congr_left (fun pr _ => rfl)
  | block room ps pairs =>
    simp only [Batch.records, Batch.students, List.map_map]
    exact List.map_congr_left (fun pr _ => rfl)

theorem flatten_records_map_recStudent (st : AllocState) :
    ((st.batches.map Batch.records).flatten).map recStudent = assignedStudents st := by
  rw [List.map_flatten, List.map_map, assignedStudents]
  congr 1
  exact List.map_congr_left (fun b _ => records_map_recStudent b)

theorem sampleFrac1_perm {α : Type} (seed : Nat) (l : List α) :
    (sampleFrac1 seed l).Perm l := by
  unfold sampleFrac1
  have h1 := (List.perm_insertionSort (fun a b : Nat × α => a.1 ≤ b.1)
    (l.enum.map (fun p => (lcgKey seed p.1, p.2)))).map Prod.snd
  refine h1.trans ?_
  rw [List.map_map]
  have h2 : l.enum.map (Prod.snd ∘ fun p : Nat × α => (lcgKey seed p.1, p.2)) =
      l.enum.map Prod.snd := List.map_congr_left (fun p _ => rfl)
  rw [h2, List.enum_map_snd]

theorem applyMode_perm (mode : String) (ambient : Nat) (students : List Student) :
    (applyMode mode ambient students).Perm students := by
  unfold applyMode pdSample
  by_cases h : mode == shuffleMode
  · simp only [h, if_true]
    exact sampleFrac1_perm _ _
  · simp [h]

theorem allocateSeats_ok_shape (ambient : Nat) (roster : Roster)
    (rawColCat : List ColSeat) (rawBlockCat : List BlockSeat) (spec : Spec)
    (mode : String) (students : List Student) (ws : List String) (t : List Record)
    (hp : parseStudents roster = some students)
    (ha : allocateSeats ambient roster rawColCat rawBlockCat spec mode = (ws, Except.ok t)) :
    t = finalTable (allocCore (normColCat rawColCat) (normBlockCat rawBlockCat) spec
        (applyMode mode ambient students)).batches ∧
    ws = (allocCore (normColCat rawColCat) (normBlockCat rawBlockCat) spec
        (applyMode mode ambient students)).warnings := by
  simp only [allocateSeats, hp] at ha
  split at ha
  · simp at ha
  · simp only [Prod.mk.injEq, Except.ok.injEq] at ha
    exact ⟨ha.2.symm, ha.1.symm⟩

theorem parseStudents_some (roster : Roster) (students : List Student)
    (hp : parseStudents roster = some students) :
    students.length = roster.rows.length := by
  unfold parseStudents at hp
  split at hp
  · cases hp
    exact List.length_map _ _
  · cases hp

/-- C1: for every successful run, `|output table| + |leftover pool| =
`|parsed roster|`, and the roster entries (duplicates as distinct claims)
are exactly the output rows' students together with the leftover pool, as a
permutation (each entry exactly once). -/
theorem allocate_seats_conservation (ambient : Nat) (roster : Roster)
    (rawColCat : List ColSeat) (rawBlockCat : List BlockSeat) (spec : Spec)
    (mode : String) (students : List Student) (ws : List String) (t : List Record)
    (hp : parseStudents roster = some students)
    (ha : allocateSeats ambient roster rawColCat rawBlockCat spec mode = (ws, Except.ok t)) :
    students.length = roster.rows.length ∧
    t.length + (allocCore (normColCat rawColCat) (normBlockCat rawBlockCat) spec
        (applyMode mode ambient students)).pool.length = students.length ∧
    (t.map recStudent ++ (allocCore (normColCat rawColCat) (normBlockCat rawBlockCat) spec
        (applyMode mode ambient students)).pool).Perm students := by
  obtain ⟨ht, -⟩ := allocateSeats_ok_shape ambient roster rawColCat rawBlockCat spec mode
    students ws t hp ha
  have hperm : t.Perm (((allocCore (normColCat rawColCat) (normBlockCat rawBlockCat) spec
      (applyMode mode ambient students)).batches.map Batch.records).flatten) := by
    rw [ht]
    exact List.perm_insertionSort _ _
  have h2 := hperm.map recStudent
  rw [flatten_records_map_recStudent] at h2
  have h3 := h2.append_right (allocCore (normColCat rawColCat) (normBlockCat rawBlockCat) spec
      (applyMode mode ambient students)).pool
  rw [allocCore_students] at h3
  have h5 := h3.trans (applyMode_perm mode ambient students)
  refine ⟨parseStudents_some roster students hp, ?_, h5⟩
  have h6 := h5.length_eq
  simp only [List.length_append, List.length_map] at h6
  exact h6

/-- C4: the result of a run is a pure function of the roster, the seat
inventories, the constraint spec and the ordering policy.  The ambient
(global numpy) random state never influences the output: the shuffle is
keyed by the fixed seed 42 (`random_state=42`, app.py line 57), so two runs
on identical inputs under the same mode, whatever the ambient state of
each, produce identical warning lists and identical output tables. -/
theorem allocation_deterministic (ambient1 ambient2 : Nat) (roster : Roster)
    (rawColCat : List ColSeat) (rawBlockCat : List BlockSeat) (spec : Spec)
    (mode : String) :
    allocateSeats ambient1 roster rawColCat rawBlockCat spec mode =
      allocateSeats ambient2 roster rawColCat rawBlockCat spec mode := rfl

/-- C9: a column room whose constraints were built by the app's form
(`mkColConstraint`, app.py lines 167-171) is processed as a flat sequence of
per-color queries in the order: all Left colors in caller order, then all
Middle colors, then all Right colors — each color a separate
`colQueryStep` that consumes students before the next color's query runs,
never one merged query. -/
theorem column_room_query_order (colCat : List ColSeat) (blockCat : List BlockSeat)
    (room : String) (left middle right : List String) (st : AllocState)
    (h : isColRoom room = true) :
    roomStep colCat blockCat st (room, mkColConstraint left middle right) =
      (left.map (fun c => ("Left", c)) ++ middle.map (fun c => ("Middle", c)) ++
          right.map (fun c => ("Right", c))).foldl
        (fun acc pc => colQueryStep colCat room pc.1 (norm pc.2) acc) st := by
  simp only [roomStep, h, if_true, mkColConstraint, List.foldl_append, List.foldl_map,
    List.foldl_cons, List.foldl_nil]

theorem column_room_query_order_witness :
    roomStep exColCat [] ⟨[], exStudents, []⟩ ("LA 001", mkColConstraint ["Yellow"] [] []) =
      (["Yellow"].map (fun c => ("Left", c)) ++ ([] : List String).map (fun c => ("Middle", c)) ++
          ([] : List String).map (fun c => ("Right", c))).foldl
        (fun acc pc => colQueryStep exColCat "LA 001" pc.1 (norm pc.2) acc)
        ⟨[], exStudents, []⟩ :=
  column_room_query_order exColCat [] "LA 001" ["Yellow"] [] [] ⟨[], exStudents, []⟩ rfl

/-- C10: a constraint entry whose room starts with none of LA, LC, LH, CC,
KR falls through both branches of the loop (app.py lines 71, 93): the state
is returned unchanged — no batch, no warning, no pool consumption. -/
theorem unknown_room_entry_ignored (colCat : List ColSeat) (blockCat : List BlockSeat)
    (st : AllocState) (room : String) (cmap : ConstraintMap)
    (h1 : isColRoom room = false) (h2 : isBlockRoom room = false) :
    roomStep colCat blockCat st (room, cmap) = st := by
  simp [roomStep, h1, h2]

theorem unknown_room_entry_ignored_witness :
    roomStep exColCat [] ⟨[], exStudents, []⟩ ("ZZ 9", [("Left", ["Yellow"])]) =
      ⟨[], exStudents, []⟩ :=
  unknown_room_entry_ignored exColCat [] ⟨[], exStudents, []⟩ "ZZ 9" [("Left", ["Yellow"])]
    rfl rfl

theorem parseStudents_none (r : Roster)
    (h : rollIdx r.headers = none ∨ nameIdx r.headers = none) :
    parseStudents r = none := by
  unfold parseStudents
  rcases h with h | h
  · rw [h]
  · rw [h]
    cases rollIdx r.headers <;> rfl

/-- C8: header resolution.  First: if, after case-insensitive matching of
the roster headers against the synonyms (`roll no`/`roll` for the roll
number, `name` for the name), no roll column or no name column resolves,
the run fails with the labeled required-columns error, with no warnings and
no output table, whatever the seat inventories, spec and mode — i.e. before
any assignment.  Second: a roster headed `Roll` and mixed-case `nAmE` is
processed identically to one headed `Roll No` and `Name` over the same
rows. -/
theorem header_resolution :
    (∀ (ambient : Nat) (headers : List String) (rows : List (List String))
      (rawColCat : List ColSeat) (rawBlockCat : List BlockSeat) (spec : Spec) (mode : String),
      rollIdx headers = none ∨ nameIdx headers = none →
      allocateSeats ambient ⟨headers, rows⟩ rawColCat rawBlockCat spec mode =
        ([], Except.error requiredColumnsError)) ∧
    (∀ (ambient : Nat) (rows : List (List String)) (rawColCat : List ColSeat)
      (rawBlockCat : List BlockSeat) (spec : Spec) (mode : String),
      allocateSeats ambient ⟨["Roll", "nAmE"], rows⟩ rawColCat rawBlockCat spec mode =
        allocateSeats ambient ⟨["Roll No", "Name"], rows⟩ rawColCat rawBlockCat spec mode) := by
  constructor
  · intro ambient headers rows rawColCat rawBlockCat spec mode h
    unfold allocateSeats
    rw [parseStudents_none ⟨headers, rows⟩ h]
  · intro ambient rows rawColCat rawBlockCat spec mode
    have hpar : parseStudents ⟨["Roll", "nAmE"], rows⟩ =
        parseStudents ⟨["Roll No", "Name"], rows⟩ := rfl
    unfold allocateSeats
    rw [hpar]

theorem header_resolution_witness :
    (allocateSeats 0 ⟨["Student", "Full Name"], [["1", "A"]]⟩ exColCat [] exSpec seqMode =
      ([], Except.error requiredColumnsError)) ∧
    (allocateSeats 0 ⟨["Roll", "nAmE"], [["1", "A"], ["2", "B"]]⟩ exColCat [] exSpec seqMode =
      allocateSeats 0 ⟨["Roll No", "Name"], [["1", "A"], ["2", "B"]]⟩ exColCat [] exSpec seqMode) :=
  ⟨header_resolution.1 0 ["Student", "Full Name"] [["1", "A"]] exColCat [] exSpec seqMode
      (Or.inl (by decide)),
    header_resolution.2 0 [["1", "A"], ["2", "B"]] exColCat [] exSpec seqMode⟩

/-- C5 (code-bug evidence): the run on a 2-student roster with one matching
seat returns only the one-row table; the unseated student is still in the
loop's internal pool when the loop ends, but the returned output (warning
list and table) contains no trace of them — `allocate_seats` returns
`df_final` alone and `remaining_students` is dropped (app.py lines
113-120). -/
theorem leftover_students_dropped :
    allocateSeats 0 exRoster exColCat [] exSpec seqMode = ([], Except.ok exTable) ∧
    (allocCore (normColCat exColCat) (normBlockCat []) exSpec
        (applyMode seqMode 0 exStudents)).pool = [⟨"2", "B"⟩] ∧
    ∀ rec ∈ exTable, rec.rollNo ≠ "2" :=
  ⟨rfl, rfl, by decide⟩

/-- C6 (code-bug evidence): a block entry matching zero seats records its
skip notice, but when every entry matches zero seats the run does not
return an empty table — `pd.concat([])` raises and the function returns an
error (app.py lines 113, 122-124).  A column entry matching zero seats is
silently skipped (no notice, app.py lines 81-82) and processing continues
with the next entry. -/
theorem all_entries_skipped_errors :
    allocateSeats 0 exRoster exColCat [] skipSpec seqMode =
      ([blockSkipMsg "CC 101" ["odd"]], Except.error emptyConcatError) ∧
    allocateSeats 0 exRoster exColCat [] (colMissSpec ++ exSpec) seqMode =
      ([], Except.ok exTable) :=
  ⟨rfl, rfl⟩

/-- C7 (counterexample): with no re-sort requested anywhere (the function
has no such parameter), the returned table differs from the order in which
the batches produced the records: the batch order is roll "2" then "10",
the returned table is "10" then "2" — the code always re-sorts by roll
number as text (app.py line 117). -/
theorem batch_order_not_preserved :
    ((allocCore (normColCat cat7) (normBlockCat []) exSpec
        (applyMode seqMode 0 stu7)).batches.map Batch.records).flatten =
      [⟨"2", "A", "L1", "LA 001", ""⟩, ⟨"10", "B", "L2", "LA 001", ""⟩] ∧
    allocateSeats 0 ros7 cat7 [] exSpec seqMode = ([], Except.ok exTable7) ∧
    exTable7 ≠ [⟨"2", "A", "L1", "LA 001", ""⟩, ⟨"10", "B", "L2", "LA 001", ""⟩] :=
  ⟨rfl, by decide, by decide⟩

/-- C7 (amended): the returned table of every successful run is the
concatenation of the batches re-sorted — unconditionally — by roll number
compared as text (`rollLe`, lexicographic on the string form), not in batch
production order and not numerically. -/
theorem final_table_sorted_by_roll_text (ambient : Nat) (roster : Roster)
    (rawColCat : List ColSeat) (rawBlockCat : List BlockSeat) (spec : Spec)
    (mode : String) (students : List Student) (ws : List String) (t : List Record)
    (hp : parseStudents roster = some students)
    (ha : allocateSeats ambient roster rawColCat rawBlockCat spec mode = (ws, Except.ok t)) :
    List.Sorted rollLe t ∧
    t.Perm (((allocCore (normColCat rawColCat) (normBlockCat rawBlockCat) spec
        (applyMode mode ambient students)).batches.map Batch.records).flatten) := by
  obtain ⟨ht, -⟩ := allocateSeats_ok_shape ambient roster rawColCat rawBlockCat spec mode
    students ws t hp ha
  rw [ht]
  exact ⟨List.sorted_insertionSort rollLe _, List.perm_insertionSort rollLe _⟩

theorem final_table_sorted_by_roll_text_witness :
    List.Sorted rollLe exTable7 ∧
    exTable7.Perm (((allocCore (normColCat cat7) (normBlockCat []) exSpec
        (applyMode seqMode 0 stu7)).batches.map Batch.records).flatten) :=
  final_table_sorted_by_roll_text 0 ros7 cat7 [] exSpec seqMode stu7 [] exTable7 rfl
    (by decide)

/-- C2 (counterexample): a constraint spec listing the same color twice for
one position makes the run assign the same seat to two students — the
column query re-filters the full catalog each iteration and nothing marks
seats consumed (app.py lines 75-86), so the pair (LA 001, L1) appears twice
in the output table. -/
theorem seat_reuse_counterexample :
    allocateSeats 0 exRoster exColCat [] dupColorSpec seqMode =
      ([], Except.ok [⟨"1", "A", "L1", "LA 001", ""⟩, ⟨"2", "B", "L1", "LA 001", ""⟩]) ∧
    ¬ (([⟨"1", "A", "L1", "LA 001", ""⟩, ⟨"2", "B", "L1", "LA 001", ""⟩] : List Record).map
        recPair).Nodup :=
  ⟨by decide, by decide⟩

theorem allocate_seats_conservation_witness :
    exStudents.length = exRoster.rows.length ∧
    exTable.length + (allocCore (normColCat exColCat) (normBlockCat []) exSpec
        (applyMode seqMode 0 exStudents)).pool.length = exStudents.length ∧
    (exTable.map recStudent ++ (allocCore (normColCat exColCat) (normBlockCat []) exSpec
        (applyMode seqMode 0 exStudents)).pool).Perm exStudents :=
  allocate_seats_conservation 0 exRoster exColCat [] exSpec seqMode exStudents [] exTable
    rfl rfl

theorem not_col_and_block (room : String) :
    ¬(isColRoom room = true ∧ isBlockRoom room = true) := by
  intro ⟨h1, h2⟩
  simp only [isColRoom, isBlockRoom, startsWith2, Bool.or_eq_true, beq_iff_eq] at h1 h2
  rcases h1 with (h1 | h1) | h1 <;> rcases h2 with h2 | h2 <;>
    exact absurd (h1.symm.trans h2) (by decide)

theorem queryList_from (spec : Spec) : ∀ q ∈ queryList spec, QueryFrom spec q := by
  intro q hq
  rw [queryList, List.mem_flatten] at hq
  obtain ⟨l, hl, hql⟩ := hq
  rw [List.mem_map] at hl
  obtain ⟨e, he, rfl⟩ := hl
  unfold queriesOfEntry at hql
  by_cases h1 : isColRoom e.1
  · rw [if_pos h1, List.mem_flatten] at hql
    obtain ⟨l2, hl2, hql2⟩ := hql
    rw [List.mem_map] at hl2
    obtain ⟨pc, hpc, rfl⟩ := hl2
    rw [List.mem_map] at hql2
    obtain ⟨c0, hc0, rfl⟩ := hql2
    exact ⟨h1, e.2, pc.2, c0, he, hpc, hc0, rfl⟩
  · by_cases h2 : isBlockRoom e.1
    · rw [if_neg h1, if_pos h2, List.mem_singleton] at hql
      subst hql
      exact ⟨by simpa using h1, h2, e.2, he, rfl⟩
    · rw [if_neg h1, if_neg h2] at hql
      cases hql

theorem qstep_batches_from (colCat : List ColSeat) (blockCat : List BlockSeat)
    (spec : Spec) (q : Query) (hq : QueryFrom spec q) (st : AllocState)
    (hst : ∀ b ∈ st.batches, BatchFrom colCat blockCat spec b) :
    ∀ b ∈ (qstep colCat blockCat st q).batches, BatchFrom colCat blockCat spec b := by
  cases q with
  | colQ room pos color =>
    simp only [qstep, colQueryStep]
    split
    · exact hst
    · intro b hb
      rw [List.mem_append] at hb
      rcases hb with hb | hb
      · exact hst b hb
      · rw [List.mem_singleton] at hb
        subst hb
        refine ⟨hq, ?_⟩
        intro pr hpr
        obtain ⟨a, s⟩ := pr
        have hz := List.of_mem_zip hpr
        have hs := List.mem_of_mem_take hz.2
        rw [List.mem_filter] at hs
        have hcond := hs.2
        simp only [Bool.and_eq_true, beq_iff_eq] at hcond
        exact ⟨hs.1, hcond.1.1, hcond.1.2, hcond.2⟩
  | blockQ room ps =>
    simp only [qstep, blockQueryStep]
    split
    · exact hst
    · intro b hb
      rw [List.mem_append] at hb
      rcases hb with hb | hb
      · exact hst b hb
      · rw [List.mem_singleton] at hb
        subst hb
        refine ⟨hq, ?_⟩
        intro pr hpr
        obtain ⟨a, s⟩ := pr
        have hz := List.of_mem_zip hpr
        have hs := List.mem_of_mem_take hz.2
        rw [List.mem_filter] at hs
        have hcond := hs.2
        simp only [Bool.and_eq_true, beq_iff_eq, List.contains, List.elem_eq_mem,
          decide_eq_true_eq] at hcond
        exact ⟨hs.1, hcond.1, hcond.2⟩

theorem foldl_qstep_batches_from (colCat : List ColSeat) (blockCat : List BlockSeat)
    (spec : Spec) (qs : List Query) (hqs : ∀ q ∈ qs, QueryFrom spec q) (st : AllocState)
    (hst : ∀ b ∈ st.batches, BatchFrom colCat blockCat spec b) :
    ∀ b ∈ (qs.foldl (qstep colCat blockCat) st).batches, BatchFrom colCat blockCat spec b := by
  induction qs generalizing st with
  | nil => exact hst
  | cons q rest ih =>
    rw [List.foldl_cons]
    exact ih (fun q2 hq2 => hqs q2 (List.mem_cons_of_mem _ hq2))
      (qstep colCat blockCat st q)
      (qstep_batches_from colCat blockCat spec q (hqs q (List.mem_cons_self _ _)) st hst)

theorem allocCore_batches_from (colCat : List ColSeat) (blockCat : List BlockSeat)
    (spec : Spec) (pool : List Student) :
    ∀ b ∈ (allocCore colCat blockCat spec pool).batches,
      BatchFrom colCat blockCat spec b := by
  rw [allocCore_eq_foldl_queryList]
  exact foldl_qstep_batches_from colCat blockCat spec (queryList spec) (queryList_from spec)
    ⟨[], pool, []⟩ (by intro b hb; cases hb)

theorem mem_normColCat (rawColCat : List ColSeat) (s : ColSeat)
    (hs : s ∈ normColCat rawColCat) :
    ∃ s0 ∈ rawColCat, s0.roomNumber = s.roomNumber ∧ s0.position = s.position ∧
      norm s0.color = s.color ∧ s0.seatNumber = s.seatNumber := by
  rw [normColCat, List.mem_map] at hs
  obtain ⟨s0, hs0, rfl⟩ := hs
  exact ⟨s0, hs0, rfl, rfl, rfl, rfl⟩

theorem mem_normBlockCat (rawBlockCat : List BlockSeat) (s : BlockSeat)
    (hs : s ∈ normBlockCat rawBlockCat) :
    ∃ s0 ∈ rawBlockCat, s0.roomNumber = s.roomNumber ∧
      norm s0.parity = s.parity ∧ s0.seatNumber = s.seatNumber := by
  rw [normBlockCat, List.mem_map] at hs
  obtain ⟨s0, hs0, rfl⟩ := hs
  exact ⟨s0, hs0, rfl, rfl, rfl⟩

/-- C3: every row of the returned table was assigned under a query of the
constraint spec: for a column room, there is a position and a requested
color for that room and position in the spec, and a raw inventory seat in
that room at that position whose normalized (trimmed, case-folded) color
equals the normalized requested color, whose verbatim seat number is the
row's seat number; for a block room, a raw block seat of that room whose
normalized parity is in the normalized requested parity set, again with the
seat number emitted verbatim.  Every row's room is of one of the two
kinds. -/
theorem output_records_match_filters (ambient : Nat) (roster : Roster)
    (rawColCat : List ColSeat) (rawBlockCat : List BlockSeat) (spec : Spec)
    (mode : String) (students : List Student) (ws : List String) (t : List Record)
    (hp : parseStudents roster = some students)
    (ha : allocateSeats ambient roster rawColCat rawBlockCat spec mode = (ws, Except.ok t)) :
    ∀ rec ∈ t,
      (isColRoom rec.room = true →
        ∃ pos c0 cmap colors, (rec.room, cmap) ∈ spec ∧ (pos, colors) ∈ cmap ∧ c0 ∈ colors ∧
          ∃ s0 ∈ rawColCat, s0.roomNumber = rec.room ∧ s0.position = pos ∧
            norm s0.color = norm c0 ∧ rec.seatNumber = s0.seatNumber) ∧
      (isBlockRoom rec.room = true →
        ∃ cmap, (rec.room, cmap) ∈ spec ∧
          ∃ s0 ∈ rawBlockCat, s0.roomNumber = rec.room ∧
            norm s0.parity ∈ (dictGet cmap "Parity").map norm ∧
            rec.seatNumber = s0.seatNumber) ∧
      (isColRoom rec.room = true ∨ isBlockRoom rec.room = true) := by
  obtain ⟨ht, -⟩ := allocateSeats_ok_shape ambient roster rawColCat rawBlockCat spec mode
    students ws t hp ha
  intro rec hrec
  have hmem : rec ∈ (((allocCore (normColCat rawColCat) (normBlockCat rawBlockCat) spec
      (applyMode mode ambient students)).batches.map Batch.records)).flatten := by
    have hperm : t.Perm (((allocCore (normColCat rawColCat) (normBlockCat rawBlockCat) spec
        (applyMode mode ambient students)).batches.map Batch.records)).flatten := by
      rw [ht]
      exact List.perm_insertionSort rollLe _
    exact hperm.mem_iff.mp hrec
  rw [List.mem_flatten] at hmem
  obtain ⟨l, hl, hrl⟩ := hmem
  rw [List.mem_map] at hl
  obtain ⟨b, hb, rfl⟩ := hl
  have hfrom := allocCore_batches_from (normColCat rawColCat) (normBlockCat rawBlockCat)
    spec (applyMode mode ambient students) b hb
  cases b with
  | col room pos color pairs =>
    obtain ⟨⟨hcolroom, cmap, colors, c0, hcm, hpc, hc0, hcolor⟩, hpairs⟩ := hfrom
    rw [Batch.records, List.mem_map] at hrl
    obtain ⟨pr, hpr, rfl⟩ := hrl
    obtain ⟨hscat, hsroom, hspos, hscolor⟩ := hpairs pr hpr
    obtain ⟨s0, hs0, h0room, h0pos, h0color, h0seat⟩ := mem_normColCat rawColCat pr.2 hscat
    constructor
    · intro _
      refine ⟨pos, c0, cmap, colors, ?_, hpc, hc0, s0, hs0, ?_, ?_, ?_, ?_⟩
      · exact hcm
      · rw [h0room, hsroom]
      · rw [h0pos, hspos]
      · rw [h0color, hscolor, hcolor]
      · exact h0seat.symm
    · constructor
      · intro hblock
        have hblock2 : isBlockRoom room = true := hblock
        exact absurd ⟨hcolroom, hblock2⟩ (not_col_and_block room)
      · exact Or.inl hcolroom
  | block room parities pairs =>
    obtain ⟨⟨hnotcol, hblockroom, cmap, hcm, hpar⟩, hpairs⟩ := hfrom
    rw [Batch.records, List.mem_map] at hrl
    obtain ⟨pr, hpr, rfl⟩ := hrl
    obtain ⟨hscat, hsroom, hsparity⟩ := hpairs pr hpr
    obtain ⟨s0, hs0, h0room, h0parity, h0seat⟩ := mem_normBlockCat rawBlockCat pr.2 hscat
    refine ⟨?_, ?_, Or.inr hblockroom⟩
    · intro hcol
      have hcol2 : isColRoom room = true := hcol
      rw [hnotcol] at hcol2
      cases hcol2
    · intro _
      refine ⟨cmap, hcm, s0, hs0, ?_, ?_, h0seat.symm⟩
      · rw [h0room, hsroom]
      · rw [hpar] at hsparity
        rw [h0parity]
        exact hsparity

theorem normColCat_pairs (rawColCat : List ColSeat) :
    (normColCat rawColCat).map colSeatPair = rawColCat.map colSeatPair := by
  rw [normColCat, List.map_map]
  exact List.map_congr_left (fun s _ => rfl)

theorem normBlockCat_pairs (rawBlockCat : List BlockSeat) :
    (normBlockCat rawBlockCat).map blockSeatPair = rawBlockCat.map blockSeatPair := by
  rw [normBlockCat, List.map_map]
  exact List.map_congr_left (fun s _ => rfl)

theorem usedPairs_append_batch (st : AllocState) (b : Batch) (p : List Student)
    (w : List String) :
    usedPairs ⟨st.batches ++ [b], p, w⟩ = usedPairs st ++ b.records.map recPair := by
  simp [usedPairs]

theorem col_batch_recPairs (room pos color : String) (pool : List Student)
    (valid : List ColSeat) (k : Nat) (hk : k ≤ pool.length) (hk2 : k ≤ valid.length) :
    (Batch.col room pos color ((pool.take k).zip (valid.take k))).records.map recPair =
      (valid.map (fun s => (room, s.seatNumber))).take k := by
  simp only [Batch.records, List.map_map]
  have h1 : ((pool.take k).zip (valid.take k)).map
        (recPair ∘ fun pr : Student × ColSeat =>
          (⟨pr.1.rollNo, pr.1.name, pr.2.seatNumber, room, ""⟩ : Record)) =
      ((pool.take k).zip (valid.take k)).map
        ((fun s : ColSeat => (room, s.seatNumber)) ∘ Prod.snd) :=
    List.map_congr_left (fun pr _ => rfl)
  rw [h1, ← List.map_map, List.map_snd_zip, List.map_take]
  simp only [List.length_take]
  omega

theorem block_batch_recPairs (room : String) (parities : List String) (pool : List Student)
    (valid : List BlockSeat) (k : Nat) (hk : k ≤ pool.length) (hk2 : k ≤ valid.length) :
    (Batch.block room parities ((pool.take k).zip (valid.take k))).records.map recPair =
      (valid.map (fun s => (room, s.seatNumber))).take k := by
  simp only [Batch.records, List.map_map]
  have h1 : ((pool.take k).zip (valid.take k)).map
        (recPair ∘ fun pr : Student × BlockSeat =>
          (⟨pr.1.rollNo, pr.1.name, pr.2.seatNumber, room, ""⟩ : Record)) =
      ((pool.take k).zip (valid.take k)).map
        ((fun s : BlockSeat => (room, s.seatNumber)) ∘ Prod.snd) :=
    List.map_congr_left (fun pr _ => rfl)
  rw [h1, ← List.map_map, List.map_snd_zip, List.map_take]
  simp only [List.length_take]
  omega

theorem qstep_usedPairs (colCat : List ColSeat) (blockCat : List BlockSeat)
    (st : AllocState) (q : Query) :
    ∃ n, usedPairs (qstep colCat blockCat st q) =
      usedPairs st ++ (qSeatPairs colCat blockCat q).take n := by
  cases q with
  | colQ room pos color =>
    simp only [qstep, colQueryStep]
    split
    · exact ⟨0, by simp⟩
    · refine ⟨min (colCat.filter (fun s =>
        s.roomNumber == room && s.position == pos && s.color == color)).length
          st.pool.length, ?_⟩
      rw [usedPairs_append_batch st]
      rw [col_batch_recPairs room pos color st.pool _ _ (min_le_right _ _) (min_le_left _ _)]
      rfl
  | blockQ room ps =>
    simp only [qstep, blockQueryStep]
    split
    · exact ⟨0, by simp [usedPairs]⟩
    · refine ⟨min (blockCat.filter (fun s =>
        s.roomNumber == room && ps.contains s.parity)).length st.pool.length, ?_⟩
      rw [usedPairs_append_batch st]
      rw [block_batch_recPairs room _ st.pool _ _ (min_le_right _ _) (min_le_left _ _)]
      rfl

theorem foldl_qstep_pairs_nodup (colCat : List ColSeat) (blockCat : List BlockSeat)
    (qs : List Query) (st : AllocState)
    (h1 : (usedPairs st).Nodup)
    (h2 : ∀ q ∈ qs, (qSeatPairs colCat blockCat q).Nodup)
    (h3 : ∀ q ∈ qs, ∀ p ∈ usedPairs st, p ∉ qSeatPairs colCat blockCat q)
    (h4 : qs.Pairwise (fun q q2 => ∀ p ∈ qSeatPairs colCat blockCat q,
        p ∉ qSeatPairs colCat blockCat q2)) :
    (usedPairs (qs.foldl (qstep colCat blockCat) st)).Nodup := by
  induction qs generalizing st with
  | nil => exact h1
  | cons q rest ih =>
    rw [List.foldl_cons]
    obtain ⟨n, hn⟩ := qstep_usedPairs colCat blockCat st q
    obtain ⟨hhead, htail⟩ := List.pairwise_cons.mp h4
    refine ih (qstep colCat blockCat st q) ?_ ?_ ?_ htail
    · rw [hn, List.nodup_append]
      refine ⟨h1, List.Nodup.sublist (List.take_sublist _ _)
        (h2 q (List.mem_cons_self _ _)), ?_⟩
      intro p hp hp2
      exact h3 q (List.mem_cons_self _ _) p hp (List.mem_of_mem_take hp2)
    · exact fun q2 hq2 => h2 q2 (List.mem_cons_of_mem _ hq2)
    · intro q2 hq2 p hp
      rw [hn, List.mem_append] at hp
      rcases hp with hp | hp
      · exact h3 q2 (List.mem_cons_of_mem _ hq2) p hp
      · exact hhead q2 hq2 p (List.mem_of_mem_take hp)

theorem qSeatPairs_nodup (colCat : List ColSeat) (blockCat : List BlockSeat)
    (hc : (colCat.map colSeatPair).Nodup) (hb : (blockCat.map blockSeatPair).Nodup)
    (q : Query) : (qSeatPairs colCat blockCat q).Nodup := by
  cases q with
  | colQ room pos color =>
    have heq : (colCat.filter (fun s =>
          s.roomNumber == room && s.position == pos && s.color == color)).map
        (fun s => (room, s.seatNumber)) =
        (colCat.filter (fun s =>
          s.roomNumber == room && s.position == pos && s.color == color)).map
        colSeatPair := by
      refine List.map_congr_left (fun s hs => ?_)
      rw [List.mem_filter] at hs
      have hcond := hs.2
      simp only [Bool.and_eq_true, beq_iff_eq] at hcond
      rw [colSeatPair, hcond.1.1]
    show (qSeatPairs colCat blockCat (.colQ room pos color)).Nodup
    rw [qSeatPairs, heq]
    exact List.Nodup.sublist (List.Sublist.map _ (List.filter_sublist _)) hc
  | blockQ room ps =>
    have heq : (blockCat.filter (fun s =>
          s.roomNumber == room && ps.contains s.parity)).map
        (fun s => (room, s.seatNumber)) =
        (blockCat.filter (fun s =>
          s.roomNumber == room && ps.contains s.parity)).map blockSeatPair := by
      refine List.map_congr_left (fun s hs => ?_)
      rw [List.mem_filter] at hs
      have hcond := hs.2
      simp only [Bool.and_eq_true, beq_iff_eq] at hcond
      rw [blockSeatPair, hcond.1]
    show (qSeatPairs colCat blockCat (.blockQ room ps)).Nodup
    rw [qSeatPairs, heq]
    exact List.Nodup.sublist (List.Sublist.map _ (List.filter_sublist _)) hb

theorem mem_qSeatPairs_room (colCat : List ColSeat) (blockCat : List BlockSeat)
    (q : Query) (p : String × String) (hp : p ∈ qSeatPairs colCat blockCat q) :
    p.1 = q.room := by
  cases q with
  | colQ room pos color =>
    rw [qSeatPairs, List.mem_map] at hp
    obtain ⟨s, -, rfl⟩ := hp
    rfl
  | blockQ room ps =>
    rw [qSeatPairs, List.mem_map] at hp
    obtain ⟨s, -, rfl⟩ := hp
    rfl

theorem colQ_disjoint (colCat : List ColSeat) (blockCat : List BlockSeat)
    (hc : (colCat.map colSeatPair).Nodup) (room pos color pos2 color2 : String)
    (hne : pos ≠ pos2 ∨ color ≠ color2) :
    ∀ p ∈ qSeatPairs colCat blockCat (.colQ room pos color),
      p ∉ qSeatPairs colCat blockCat (.colQ room pos2 color2) := by
  intro p hp hp2
  rw [qSeatPairs, List.mem_map] at hp hp2
  obtain ⟨s, hs, rfl⟩ := hp
  obtain ⟨s2, hs2, heq⟩ := hp2
  rw [List.mem_filter] at hs hs2
  have hcond := hs.2
  have hcond2 := hs2.2
  simp only [Bool.and_eq_true, beq_iff_eq] at hcond hcond2
  have hpair : colSeatPair s2 = colSeatPair s := by
    rw [colSeatPair, colSeatPair, hcond.1.1, hcond2.1.1]
    rw [Prod.mk.injEq] at heq
    exact congrArg _ heq.2
  have hss : s2 = s := List.inj_on_of_nodup_map hc hs2.1 hs.1 hpair
  subst hss
  rcases hne with hne | hne
  · exact hne (hcond.1.2.symm.trans hcond2.1.2)
  · exact hne (hcond.2.symm.trans hcond2.2)

theorem queriesOfEntry_room (e : String × ConstraintMap) :
    ∀ q ∈ queriesOfEntry e, q.room = e.1 := by
  intro q hq
  unfold queriesOfEntry at hq
  by_cases h1 : isColRoom e.1
  · rw [if_pos h1, List.mem_flatten] at hq
    obtain ⟨l, hl, hql⟩ := hq
    rw [List.mem_map] at hl
    obtain ⟨pc, -, rfl⟩ := hl
    rw [List.mem_map] at hql
    obtain ⟨c0, -, rfl⟩ := hql
    rfl
  · by_cases h2 : isBlockRoom e.1
    · rw [if_neg h1, if_pos h2, List.mem_singleton] at hq
      subst hq
      rfl
    · rw [if_neg h1, if_neg h2] at hq
      cases hq

theorem queryList_pairwise_disjoint (colCat : List ColSeat) (blockCat : List BlockSeat)
    (spec : Spec) (hc : (colCat.map colSeatPair).Nodup)
    (hrooms : (spec.map Prod.fst).Nodup)
    (hpos : ∀ e ∈ spec, (e.2.map Prod.fst).Nodup)
    (hcolors : ∀ e ∈ spec, ∀ pc ∈ e.2, (pc.2.map norm).Nodup) :
    (queryList spec).Pairwise (fun q q2 => ∀ p ∈ qSeatPairs colCat blockCat q,
        p ∉ qSeatPairs colCat blockCat q2) := by
  rw [queryList, List.pairwise_flatten]
  constructor
  · intro l hl
    rw [List.mem_map] at hl
    obtain ⟨e, he, rfl⟩ := hl
    unfold queriesOfEntry
    by_cases h1 : isColRoom e.1
    · rw [if_pos h1, List.pairwise_flatten]
      constructor
      · intro l2 hl2
        rw [List.mem_map] at hl2
        obtain ⟨pc, hpc, rfl⟩ := hl2
        rw [List.pairwise_map]
        have hcn : pc.2.Pairwise (fun c c2 => norm c ≠ norm c2) :=
          List.pairwise_map.mp (hcolors e he pc hpc)
        exact hcn.imp (fun hne =>
          colQ_disjoint colCat blockCat hc e.1 pc.1 _ pc.1 _ (Or.inr hne))
      · have hpw : e.2.Pairwise (fun pc pc2 => pc.1 ≠ pc2.1) :=
          List.pairwise_map.mp (hpos e he)
        rw [List.pairwise_map]
        refine hpw.imp ?_
        intro pc pc2 hne q hq q2 hq2
        rw [List.mem_map] at hq hq2
        obtain ⟨c, -, rfl⟩ := hq
        obtain ⟨c2, -, rfl⟩ := hq2
        exact colQ_disjoint colCat blockCat hc e.1 pc.1 (norm c) pc2.1 (norm c2) (Or.inl hne)
    · by_cases h2 : isBlockRoom e.1
      · rw [if_neg h1, if_pos h2]
        simp
      · rw [if_neg h1, if_neg h2]
        exact List.Pairwise.nil
  · have hrw : spec.Pairwise (fun e e2 => e.1 ≠ e2.1) := List.pairwise_map.mp hrooms
    rw [List.pairwise_map]
    refine hrw.imp ?_
    intro e e2 hne q hq q2 hq2 p hp hp2
    have r1 := queriesOfEntry_room e q hq
    have r2 := queriesOfEntry_room e2 q2 hq2
    have m1 := mem_qSeatPairs_room colCat blockCat q p hp
    have m2 := mem_qSeatPairs_room colCat blockCat q2 p hp2
    exact hne ((m1.trans r1).symm.trans (m2.trans r2))

/-- C2 (amended): provided the constraint spec is dict-shaped (distinct room
keys, distinct position keys per room) and lists no two colors with the same
normalized value for one position, and no two rows of either seat inventory
share a (room number, seat number) pair, then each (room, seat_number) pair
appears at most once in the output table of a successful run. -/
theorem no_seat_reuse_of_nodup_filters (ambient : Nat) (roster : Roster)
    (rawColCat : List ColSeat) (rawBlockCat : List BlockSeat) (spec : Spec)
    (mode : String) (students : List Student) (ws : List String) (t : List Record)
    (hrooms : (spec.map Prod.fst).Nodup)
    (hpos : ∀ e ∈ spec, (e.2.map Prod.fst).Nodup)
    (hcolors : ∀ e ∈ spec, ∀ pc ∈ e.2, (pc.2.map norm).Nodup)
    (hc : (rawColCat.map colSeatPair).Nodup)
    (hb : (rawBlockCat.map blockSeatPair).Nodup)
    (hp : parseStudents roster = some students)
    (ha : allocateSeats ambient roster rawColCat rawBlockCat spec mode = (ws, Except.ok t)) :
    (t.map recPair).Nodup := by
  obtain ⟨ht, -⟩ := allocateSeats_ok_shape ambient roster rawColCat rawBlockCat spec mode
    students ws t hp ha
  have hc2 : ((normColCat rawColCat).map colSeatPair).Nodup := by
    rw [normColCat_pairs]
    exact hc
  have hb2 : ((normBlockCat rawBlockCat).map blockSeatPair).Nodup := by
    rw [normBlockCat_pairs]
    exact hb
  have hnodup : (usedPairs (allocCore (normColCat rawColCat) (normBlockCat rawBlockCat)
      spec (applyMode mode ambient students))).Nodup := by
    rw [allocCore_eq_foldl_queryList]
    refine foldl_qstep_pairs_nodup _ _ _ _ ?_ ?_ ?_ ?_
    · exact List.nodup_nil
    · intro q _
      exact qSeatPairs_nodup _ _ hc2 hb2 q
    · intro q _ p hp2
      cases hp2
    · exact queryList_pairwise_disjoint _ _ spec hc2 hrooms hpos hcolors
  have hperm : (t.map recPair).Perm (usedPairs (allocCore (normColCat rawColCat)
      (normBlockCat rawBlockCat) spec (applyMode mode ambient students))) := by
    rw [ht]
    exact (List.perm_insertionSort rollLe _).map recPair
  exact hperm.nodup_iff.mpr hnodup

theorem no_seat_reuse_of_nodup_filters_witness : (exTable.map recPair).Nodup :=
  no_seat_reuse_of_nodup_filters 0 exRoster exColCat [] exSpec seqMode exStudents [] exTable
    (by decide) (by decide) (by decide) (by decide) (by decide) rfl rfl

theorem output_records_match_filters_witness :
    (⟨"1", "A", "L1", "LA 001", ""⟩ : Record) ∈ exTable ∧
    (∃ pos c0 cmap colors, ("LA 001", cmap) ∈ exSpec ∧ (pos, colors) ∈ cmap ∧ c0 ∈ colors ∧
      ∃ s0 ∈ exColCat, s0.roomNumber = "LA 001" ∧ s0.position = pos ∧
        norm s0.color = norm c0 ∧ "L1" = s0.seatNumber) :=
  ⟨by decide,
    ((output_records_match_filters 0 exRoster exColCat [] exSpec seqMode exStudents
      [] exTable rfl rfl) ⟨"1", "A", "L1", "LA 001", ""⟩ (by decide)).1 rfl⟩

end SeatAlloc
